import Mathlib

/-
Shallow embedding of src/hf_dataset_client.py (class HFDatasetClient).

The Python code delegates remote effects to the huggingface_hub SDK and
local effects to os / shutil.  Those collaborators are modelled as:
  * RemoteCap : a record of oracles, one per SDK entry point used; each
    oracle either returns a value or raises a Fault (modelled with Except).
  * FS : the local filesystem state (existing directories and files).
Observable behaviour (which upload calls were issued, log lines) is
returned explicitly as traces.  The host platform path separator is a
parameter sep : Char so that platform independence can be stated.
-/

/-- A fault raised by the remote capability (network, auth, not-found, other). -/
inductive Fault where
  | network
  | auth
  | notFound
  | other (s : String)
deriving DecidableEq, Repr

/-- Message text carried by a fault, used only in the log model. -/
def Fault.msg : Fault → String
  | .network => "network error"
  | .auth => "authentication error"
  | .notFound => "entry not found"
  | .other s => s

/-- One entry of dataset_info(...).siblings, of which the code reads rfilename. -/
structure Sibling where
  rfilename : String
deriving DecidableEq, Repr

/-- The remote storage capability: one oracle per huggingface_hub entry point
used by the source.  Argument order follows the source call sites. -/
structure RemoteCap where
  /-- HfApi.upload_file(path_or_fileobj, path_in_repo, repo_id, repo_type, revision, commit_message). -/
  uploadFile : String → String → String → String → String → String → Except Fault Unit
  /-- HfApi.dataset_info(repo_id, revision, token), of which .siblings is consumed. -/
  datasetInfo : String → String → String → Except Fault (List Sibling)
  /-- hf_hub_download(repo_id, filename, repo_type, revision, token); on success
  it materialises a file at a temporary path and returns that path, modelled as
  the pair (temporary path, content). -/
  hubDownload : String → String → String → String → String → Except Fault (String × String)
  /-- HfApi.delete_file(path_in_repo, repo_id, repo_type, revision). -/
  deleteFile : String → String → String → String → Except Fault Unit

/-- The client configuration fixed in HFDatasetClient.__init__. -/
structure Client where
  token : String
  repo_id : String
  repo_type : String
  branch : String
deriving DecidableEq, Repr

/-- Python truthiness of os.getenv results: None and the empty string are falsy. -/
def pyTruthy : Option String → Bool
  | none => false
  | some s => !s.isEmpty

/-- HFDatasetClient.__init__ (src lines 21-39): reads HF_TOKEN and HF_REPO_ID,
raises ValueError when either is missing or empty, otherwise yields the
configured client with repo_type "dataset" and branch "main".  Failure is
an error value, so no partially constructed client exists on failure. -/
def clientInit (hfToken hfRepoId : Option String) : Except String Client :=
  if !(pyTruthy hfToken) then
    .error "Environment variable HF_TOKEN is not set."
  else if !(pyTruthy hfRepoId) then
    .error "Environment variable HF_REPO_ID is not set."
  else
    .ok { token := hfToken.getD "", repo_id := hfRepoId.getD "",
          repo_type := "dataset", branch := "main" }

/-- The host path separator as a one-character string. -/
def sepStr (sep : Char) : String := String.mk [sep]

/-- Models os.path.join(a, b) for one separator: an absolute b replaces a;
an empty a or an a ending with the separator is concatenated directly;
otherwise the separator is inserted. -/
def osJoin (sep : Char) (a b : String) : String :=
  if b.data.head? = some sep then b
  else if a = "" then b
  else if a.data.getLast? = some sep then a ++ b
  else a ++ sepStr sep ++ b

/-- Folds os.path.join over a list of path components. -/
def osJoinAll (sep : Char) (base : String) (comps : List String) : String :=
  comps.foldl (osJoin sep) base

/-- Models os.path.relpath(path, start) in the situation exercised by
upload_folder: path lies strictly below start (start followed by the
separator is a prefix of path), no "..", no symlinks, no trailing
separator on start.  Outside that situation the model returns path
unchanged; no claim depends on that branch. -/
def osRelpath (sep : Char) (path start : String) : String :=
  if path = start then "."
  else if List.isPrefixOf (start.data ++ [sep]) path.data then
    String.mk (path.data.drop (start.data.length + 1))
  else path

/-- Python str.replace applied with the one-character pattern of line 90:
every backslash becomes a forward slash. -/
def replaceBackslashes (s : String) : String :=
  String.mk (s.data.map fun ch => if ch = '\\' then '/' else ch)

/-- Python name.startswith of line 81 with the one-character pattern ".". -/
def isHidden (name : String) : Bool := name.data.head? = some '.'

/-- A local directory tree entry: a regular file or a subdirectory. -/
inductive Entry where
  | file (name : String)
  | dir (name : String) (children : List Entry)

/-- The regular-file names among the immediate children of a directory,
in listing order (the filenames component of one os.walk triple). -/
def filesOf : List Entry → List String
  | [] => []
  | .file n :: rest => n :: filesOf rest
  | .dir _ _ :: rest => filesOf rest

mutual
/-- The (relative directory components, filename) pairs contributed by one
child entry in os.walk top-down order: a file contributes nothing here
(root files are listed by the enclosing directory), a subdirectory
contributes first its own files, then its subtrees.  comps are the
components of the enclosing directory relative to the walk root. -/
def entryWalk (comps : List String) : Entry → List (List String × String)
  | .file _ => []
  | .dir n cs =>
      (filesOf cs).map (fun f => (comps ++ [n], f)) ++ listWalk (comps ++ [n]) cs

/-- The walk contributions of a child list, in listing order. -/
def listWalk (comps : List String) : List Entry → List (List String × String)
  | [] => []
  | e :: rest => entryWalk comps e ++ listWalk comps rest
end

/-- All regular files yielded by os.walk over a tree, as (relative directory
components, filename), in traversal order: the root directory files first,
then each subtree. -/
def walkFiles (t : List Entry) : List (List String × String) :=
  (filesOf t).map (fun f => ([], f)) ++ listWalk [] t

/-- HFDatasetClient.upload (src lines 44-60): issues upload_file with the
client configuration, returns True on success and False when the remote
capability raises; the fault never escapes. -/
def upload (cap : RemoteCap) (c : Client) (local_path repo_path : String) : Bool :=
  match cap.uploadFile local_path repo_path c.repo_id c.repo_type c.branch "Upload media" with
  | .ok _ => true
  | .error _ => false

/-- The console lines printed by one call of HFDatasetClient.upload. -/
def uploadLog (cap : RemoteCap) (c : Client) (local_path repo_path : String) : List String :=
  ("[INFO] Uploading " ++ local_path ++ " -> " ++ repo_path) ::
  match cap.uploadFile local_path repo_path c.repo_id c.repo_type c.branch "Upload media" with
  | .ok _ => ["[SUCCESS] Uploaded: " ++ repo_path]
  | .error e => ["[ERROR] Upload failed: " ++ e.msg]

/-- The (local_path, repo_path) pair computed by the loop body of
upload_folder (src lines 84-90) for one walked file: local_path is the
root joined with the filename, rel_path its path relative to the tree
root, repo_path the join with the repo base with backslashes replaced. -/
def filePaths (sep : Char) (local_folder repo_base_path : String)
    (e : List String × String) : String × String :=
  let local_path := osJoin sep (osJoinAll sep local_folder e.1) e.2
  let rel_path := osRelpath sep local_path local_folder
  (local_path, replaceBackslashes (osJoin sep repo_base_path rel_path))

/-- The loop of upload_folder (src lines 78-98) over the walked file list:
hidden files are skipped; otherwise upload is called; on the first failure
the loop stops with False.  The second component is the trace of issued
upload calls in order, the failing call included. -/
def processFiles (cap : RemoteCap) (c : Client) (sep : Char)
    (local_folder repo_base_path : String) :
    List (List String × String) → Bool × List (String × String)
  | [] => (true, [])
  | e :: rest =>
    if isHidden e.2 then processFiles cap c sep local_folder repo_base_path rest
    else
      let p := filePaths sep local_folder repo_base_path e
      if upload cap c p.1 p.2 then
        let r := processFiles cap c sep local_folder repo_base_path rest
        (r.1, p :: r.2)
      else (false, [p])

/-- HFDatasetClient.upload_folder (src lines 65-105).  The local tree is
passed as Option: none models os.path.isdir(local_folder) being false
(early return False, line 73), some t the directory with children t.
Nothing in the modelled loop raises, so the outer except of line 103 is
unreachable in the model.  Returns the result together with the trace of
issued upload calls. -/
def upload_folder (cap : RemoteCap) (c : Client) (sep : Char)
    (local_folder repo_base_path : String) (tree : Option (List Entry)) :
    Bool × List (String × String) :=
  match tree with
  | none => (false, [])
  | some t => processFiles cap c sep local_folder repo_base_path (walkFiles t)

/-- HFDatasetClient.list_files (src lines 110-131): fetches dataset_info and
returns the rfilename of every sibling; any fault yields the empty list. -/
def list_files (cap : RemoteCap) (c : Client) : List String :=
  match cap.datasetInfo c.repo_id c.branch c.token with
  | .ok info => info.map (·.rfilename)
  | .error _ => []

/-- The local filesystem state: the set of existing directories (as paths)
and the existing files with their contents. -/
structure FS where
  dirs : List String
  files : List (String × String)
deriving DecidableEq, Repr

/-- Overwrites or creates the file at path p. -/
def FS.setFile (fs : FS) (p content : String) : FS :=
  { fs with files := (p, content) :: fs.files.filter (fun kv => kv.1 ≠ p) }

/-- Removes the file at path p when present. -/
def FS.removeFile (fs : FS) (p : String) : FS :=
  { fs with files := fs.files.filter (fun kv => kv.1 ≠ p) }

/-- Models os.path.dirname(p): everything up to the last separator, the
trailing separators stripped unless the head is all separators. -/
def dirname (sep : Char) (p : String) : String :=
  let head := (p.data.reverse.dropWhile (fun ch => ch ≠ sep)).reverse
  if head.all (fun ch => ch = sep) then String.mk head
  else String.mk ((head.reverse.dropWhile (fun ch => ch = sep)).reverse)

/-- Splits character data at every separator occurrence, as Python
str.split(sep) does: n separators yield n+1 pieces, empty pieces kept. -/
def splitOnSep (sep : Char) : List Char → List (List Char)
  | [] => [[]]
  | ch :: rest =>
      match splitOnSep sep rest with
      | [] => [[]]
      | cur :: parts =>
          if ch = sep then [] :: cur :: parts else (ch :: cur) :: parts

/-- The chain of directories os.makedirs(d) brings into existence: every
separator-boundary path leading up to and including d. -/
def boundaryChain (sep : Char) (d : String) : List String :=
  let parts := (splitOnSep sep d.data).map String.mk
  (List.range parts.length).map
    (fun i => String.intercalate (sepStr sep) (parts.take (i + 1)))

/-- Models os.makedirs(d, exist_ok=True) of src line 149: the empty path
raises FileNotFoundError; otherwise d and all its missing ancestors are
created.  Existing directories are tolerated (exist_ok). -/
def makedirs (sep : Char) (d : String) (fs : FS) : Except Unit FS :=
  if d = "" then .error ()
  else .ok { fs with
             dirs := fs.dirs ++ (boundaryChain sep d).filter (fun q => q ∉ fs.dirs) }

/-- Models shutil.move(src, dst) of src line 150 for regular files: the file
content leaves src and appears at dst; a missing source raises. -/
def moveFile (src dst : String) (fs : FS) : Except Unit FS :=
  match fs.files.lookup src with
  | none => .error ()
  | some content => .ok ((fs.removeFile src).setFile dst content)

/-- HFDatasetClient.download (src lines 137-156): hf_hub_download materialises
the content at a temporary path, the destination directory chain is created,
the temporary file is moved (not copied) to local_path.  Every raised fault
is caught and turns into the result False; the second component is the
resulting local filesystem. -/
def download (cap : RemoteCap) (c : Client) (sep : Char)
    (repo_path local_path : String) (fs : FS) : Bool × FS :=
  match cap.hubDownload c.repo_id repo_path c.repo_type c.branch c.token with
  | .error _ => (false, fs)
  | .ok tc =>
    let fs1 := fs.setFile tc.1 tc.2
    match makedirs sep (dirname sep local_path) fs1 with
    | .error _ => (false, fs1)
    | .ok fs2 =>
      match moveFile tc.1 local_path fs2 with
      | .error _ => (false, fs2)
      | .ok fs3 => (true, fs3)

/-- HFDatasetClient.delete (src lines 161-175): issues delete_file, True on
success, False when the remote capability raises. -/
def delete (cap : RemoteCap) (c : Client) (repo_path : String) : Bool :=
  match cap.deleteFile repo_path c.repo_id c.repo_type c.branch with
  | .ok _ => true
  | .error _ => false

/-- One client operation, for stating configuration immutability over
arbitrary call sequences. -/
inductive Op where
  | put (local_path repo_path : String)
  | putTree (local_folder repo_base_path : String) (tree : Option (List Entry))
  | get (repo_path local_path : String)
  | list
  | remove (repo_path : String)

/-- The system state carried across operations: the client object and the
local filesystem. -/
structure SysState where
  client : Client
  fs : FS

/-- Runs one operation.  No method of the source assigns to a field of self,
so every operation leaves the client component as it was; only download
changes the local filesystem. -/
def runOp (cap : RemoteCap) (sep : Char) (s : SysState) : Op → SysState
  | .put lp rp =>
      { s with client := (fun _ => s.client) (upload cap s.client lp rp) }
  | .putTree lf rb t =>
      { s with client := (fun _ => s.client) (upload_folder cap s.client sep lf rb t) }
  | .get rp lp => { s with fs := (download cap s.client sep rp lp s.fs).2 }
  | .list => { s with client := (fun _ => s.client) (list_files cap s.client) }
  | .remove rp => { s with client := (fun _ => s.client) (delete cap s.client rp) }

/-- Runs a sequence of operations from an initial state. -/
def runOps (cap : RemoteCap) (sep : Char) (s : SysState) (ops : List Op) : SysState :=
  ops.foldl (runOp cap sep) s

/- Concrete objects used by witness theorems. -/

/-- A remote capability on which every oracle succeeds. -/
def okCap : RemoteCap where
  uploadFile := fun _ _ _ _ _ _ => .ok ()
  datasetInfo := fun _ _ _ => .ok []
  hubDownload := fun _ _ _ _ _ => .ok ("cachetmp", "payload")
  deleteFile := fun _ _ _ _ => .ok ()

/-- The client produced by a successful construction with token tok and
repository repo. -/
def testClient : Client :=
  { token := "tok", repo_id := "repo", repo_type := "dataset", branch := "main" }

/-- A capability whose upload oracle always raises. -/
def failUploadCap : RemoteCap :=
  { okCap with uploadFile := fun _ _ _ _ _ _ => .error .network }

/-- A capability whose metadata oracle always raises. -/
def failListCap : RemoteCap :=
  { okCap with datasetInfo := fun _ _ _ => .error .auth }

/- Helper lemmas. -/

/-- No single operation writes a field of self, so the client component of the
state is untouched. -/
theorem runOp_client (cap : RemoteCap) (sep : Char) (s : SysState) (op : Op) :
    (runOp cap sep s op).client = s.client := by
  cases op <;> rfl

/-- The client component is untouched by any operation sequence. -/
theorem runOps_client (cap : RemoteCap) (sep : Char) :
    ∀ (ops : List Op) (s : SysState), (runOps cap sep s ops).client = s.client
  | [], _ => rfl
  | op :: ops, s => by
      have h := runOps_client cap sep ops (runOp cap sep s op)
      simpa [runOps, runOp_client] using h

/-- C4: construction fails exactly when the credential or the repository
identifier is absent or empty; either failure is independent of the other
input, and success yields a client (the Except value carries no client in
the error case, so no partial client exists on failure). -/
theorem claim_C4 (hfToken hfRepoId : Option String) :
    (pyTruthy hfToken = false → ∃ m, clientInit hfToken hfRepoId = .error m) ∧
    (pyTruthy hfRepoId = false → ∃ m, clientInit hfToken hfRepoId = .error m) ∧
    ((∃ c, clientInit hfToken hfRepoId = .ok c) ↔
      (pyTruthy hfToken = true ∧ pyTruthy hfRepoId = true)) := by
  cases ht : pyTruthy hfToken <;> cases hr : pyTruthy hfRepoId <;>
    simp [clientInit, ht, hr]

theorem claim_C4_witness :
    (∃ m, clientInit none (some "repo") = .error m) ∧
    (∃ m, clientInit (some "tok") (some "") = .error m) ∧
    (∃ c, clientInit (some "tok") (some "repo") = .ok c) :=
  ⟨(claim_C4 none (some "repo")).1 rfl,
   (claim_C4 (some "tok") (some "")).2.1 rfl,
   ((claim_C4 (some "tok") (some "repo")).2.2).mpr ⟨rfl, rfl⟩⟩

/-- C5: any fault of the metadata fetch makes list_files return the empty
list, the same value it returns for a repository with zero files, so the
two situations are indistinguishable to the caller. -/
theorem claim_C5 (cap capEmpty : RemoteCap) (c : Client) (e : Fault)
    (hfail : cap.datasetInfo c.repo_id c.branch c.token = .error e)
    (hempty : capEmpty.datasetInfo c.repo_id c.branch c.token = .ok []) :
    list_files cap c = [] ∧ list_files capEmpty c = [] ∧
      list_files cap c = list_files capEmpty c := by
  unfold list_files
  rw [hfail, hempty]
  simp

theorem claim_C5_witness :
    list_files failListCap testClient = [] ∧ list_files okCap testClient = [] ∧
      list_files failListCap testClient = list_files okCap testClient :=
  claim_C5 failListCap okCap testClient .auth rfl rfl

/-- C7: whenever the remote upload oracle raises a fault, upload returns
False and logs the failure; upload is a total function into Bool, so no
fault reaches its caller. -/
theorem claim_C7 (cap : RemoteCap) (c : Client) (lp rp : String) (e : Fault)
    (h : cap.uploadFile lp rp c.repo_id c.repo_type c.branch "Upload media" = .error e) :
    upload cap c lp rp = false ∧
    uploadLog cap c lp rp =
      ["[INFO] Uploading " ++ lp ++ " -> " ++ rp, "[ERROR] Upload failed: " ++ e.msg] := by
  unfold upload uploadLog
  rw [h]
  exact ⟨rfl, rfl⟩

theorem claim_C7_witness :
    upload failUploadCap testClient "a.bin" "x/a.bin" = false ∧
    uploadLog failUploadCap testClient "a.bin" "x/a.bin" =
      ["[INFO] Uploading " ++ "a.bin" ++ " -> " ++ "x/a.bin",
       "[ERROR] Upload failed: " ++ Fault.network.msg] :=
  claim_C7 failUploadCap testClient "a.bin" "x/a.bin" .network rfl

/-- C9: a successfully constructed client carries repo_type "dataset" and
branch "main", and every sequence of operations leaves the whole client
configuration (token, repo_id, repo_type, branch) exactly as constructed. -/
theorem claim_C9 (hfToken hfRepoId : Option String) (c : Client)
    (h : clientInit hfToken hfRepoId = .ok c) :
    c.repo_type = "dataset" ∧ c.branch = "main" ∧
    ∀ (cap : RemoteCap) (sep : Char) (fs : FS) (ops : List Op),
      (runOps cap sep ⟨c, fs⟩ ops).client = c := by
  unfold clientInit at h
  split at h
  · exact absurd h (by simp)
  · split at h
    · exact absurd h (by simp)
    · simp only [Except.ok.injEq] at h
      subst h
      exact ⟨rfl, rfl, fun cap sep fs ops => runOps_client cap sep ops ⟨_, fs⟩⟩

theorem claim_C9_witness :
    testClient.repo_type = "dataset" ∧ testClient.branch = "main" ∧
    (runOps okCap '/' ⟨testClient, ⟨[], []⟩⟩
      [Op.put "a.bin" "x/a.bin", Op.get "x/a.bin" "out/a.bin", Op.list,
       Op.putTree "folder" "base" (some [Entry.file "f.txt"]),
       Op.remove "x/a.bin"]).client = testClient := by
  have h := claim_C9 (some "tok") (some "repo") testClient rfl
  exact ⟨h.1, h.2.1, h.2.2 okCap '/' ⟨[], []⟩ _⟩

/-- A walked file list in which every filename is hidden is processed with
no upload call and overall success. -/
theorem processFiles_allHidden (cap : RemoteCap) (c : Client) (sep : Char)
    (lf rb : String) :
    ∀ l : List (List String × String), (l.all fun e => isHidden e.2) = true →
      processFiles cap c sep lf rb l = (true, [])
  | [], _ => rfl
  | e :: rest, h => by
      rw [List.all_cons, Bool.and_eq_true] at h
      simp [processFiles, h.1, processFiles_allHidden cap c sep lf rb rest h.2]

/-- C10: a local_folder that is not a directory makes upload_folder return
False with no upload call issued; a directory whose walk yields only hidden
files makes it return True with no upload call issued. -/
theorem claim_C10 (cap : RemoteCap) (c : Client) (sep : Char) (lf rb : String) :
    upload_folder cap c sep lf rb none = (false, []) ∧
    ∀ t : List Entry, ((walkFiles t).all fun e => isHidden e.2) = true →
      upload_folder cap c sep lf rb (some t) = (true, []) := by
  refine ⟨rfl, fun t ht => ?_⟩
  unfold upload_folder
  exact processFiles_allHidden cap c sep lf rb (walkFiles t) ht

theorem claim_C10_witness :
    upload_folder okCap testClient '/' "folder" "" none = (false, []) ∧
    upload_folder okCap testClient '/' "folder" ""
      (some [Entry.file ".DS_Store", Entry.dir "sub" [Entry.file ".gitkeep"]]) =
      (true, []) := by
  have h := claim_C10 okCap testClient '/' "folder" ""
  exact ⟨h.1, h.2 [Entry.file ".DS_Store", Entry.dir "sub" [Entry.file ".gitkeep"]]
    (by decide)⟩

mutual
/-- Removes an entry when it is a hidden regular file; hidden directories are
kept, since line 81 of the source tests file names only. -/
def eraseHiddenE : Entry → List Entry
  | .file n => if isHidden n then [] else [.file n]
  | .dir n cs => [.dir n (eraseHidden cs)]

/-- Removes every hidden regular file, at every depth, from a child list. -/
def eraseHidden : List Entry → List Entry
  | [] => []
  | e :: rest => eraseHiddenE e ++ eraseHidden rest
end

/-- filesOf distributes over list append. -/
theorem filesOf_append : ∀ l₁ l₂ : List Entry,
    filesOf (l₁ ++ l₂) = filesOf l₁ ++ filesOf l₂
  | [], _ => rfl
  | .file n :: rest, l₂ => by simp [filesOf, filesOf_append rest l₂]
  | .dir n cs :: rest, l₂ => by simp [filesOf, filesOf_append rest l₂]

/-- listWalk distributes over list append. -/
theorem listWalk_append (comps : List String) : ∀ l₁ l₂ : List Entry,
    listWalk comps (l₁ ++ l₂) = listWalk comps l₁ ++ listWalk comps l₂
  | [], _ => rfl
  | e :: rest, l₂ => by simp [listWalk, listWalk_append comps rest l₂]

/-- Removing the hidden files of a directory filters its immediate file list. -/
theorem filesOf_erase : ∀ l : List Entry,
    filesOf (eraseHidden l) = (filesOf l).filter fun n => !(isHidden n)
  | [] => rfl
  | .file n :: rest => by
      by_cases h : isHidden n <;>
        simp [eraseHidden, eraseHiddenE, filesOf, filesOf_append, h, filesOf_erase rest]
  | .dir n cs :: rest => by
      simp [eraseHidden, eraseHiddenE, filesOf, filesOf_append, filesOf_erase rest]

/-- Pairing with fixed directory components commutes with the hidden filter. -/
theorem map_pair_filter (comps : List String) : ∀ l : List String,
    ((l.filter fun n => !(isHidden n)).map fun f => (comps, f)) =
      ((l.map fun f => (comps, f)).filter fun e => !(isHidden e.2))
  | [] => rfl
  | n :: rest => by
      by_cases h : isHidden n <;> simp [h, map_pair_filter comps rest]

mutual
/-- The walk of one entry with its hidden files removed is the filtered walk. -/
theorem entryWalk_erase (comps : List String) : ∀ e : Entry,
    listWalk comps (eraseHiddenE e) =
      (entryWalk comps e).filter fun x => !(isHidden x.2)
  | .file n => by
      by_cases h : isHidden n <;> simp [eraseHiddenE, listWalk, entryWalk, h]
  | .dir n cs => by
      simp [eraseHiddenE, listWalk, entryWalk, filesOf_erase cs,
        map_pair_filter (comps ++ [n]) (filesOf cs), listWalk_erase (comps ++ [n]) cs,
        List.filter_append]

/-- The walk of a child list with its hidden files removed is the filtered walk. -/
theorem listWalk_erase (comps : List String) : ∀ l : List Entry,
    listWalk comps (eraseHidden l) =
      (listWalk comps l).filter fun x => !(isHidden x.2)
  | [] => rfl
  | e :: rest => by
      simp [eraseHidden, listWalk, listWalk_append, entryWalk_erase comps e,
        listWalk_erase comps rest, List.filter_append]
end

/-- The whole walk of a tree with its hidden files removed is the filtered walk. -/
theorem walkFiles_erase (t : List Entry) :
    walkFiles (eraseHidden t) = (walkFiles t).filter fun x => !(isHidden x.2) := by
  simp [walkFiles, filesOf_erase t, map_pair_filter [] (filesOf t),
    listWalk_erase [] t, List.filter_append]

/-- The upload loop ignores hidden entries: processing the filtered list is
processing the full list. -/
theorem processFiles_filterHidden (cap : RemoteCap) (c : Client) (sep : Char)
    (lf rb : String) : ∀ l : List (List String × String),
    processFiles cap c sep lf rb (l.filter fun e => !(isHidden e.2)) =
      processFiles cap c sep lf rb l
  | [] => rfl
  | e :: rest => by
      by_cases h : isHidden e.2 <;>
        simp [processFiles, h, processFiles_filterHidden cap c sep lf rb rest]

/-- C2: upload_folder behaves on any tree exactly as on the same tree with
every hidden regular file removed, at every depth and under every remote
oracle: the result and the full trace of issued upload calls coincide, so
no upload call is ever issued for a hidden file and the success or failure
of a hidden file cannot affect the overall result. -/
theorem claim_C2 (cap : RemoteCap) (c : Client) (sep : Char) (lf rb : String)
    (t : List Entry) :
    upload_folder cap c sep lf rb (some (eraseHidden t)) =
      upload_folder cap c sep lf rb (some t) := by
  show processFiles cap c sep lf rb (walkFiles (eraseHidden t)) =
    processFiles cap c sep lf rb (walkFiles t)
  rw [walkFiles_erase]
  exact processFiles_filterHidden cap c sep lf rb (walkFiles t)

/-- A capability that accepts every upload except the one whose local path
is d/bad.txt. -/
def failBadCap : RemoteCap :=
  { okCap with uploadFile := fun lp _ _ _ _ _ =>
      if lp = "d/bad.txt" then .error .network else .ok () }

/-- The upload loop stops at the first failing non-hidden file: every earlier
non-hidden file has been uploaded (and appears in the trace, in order), the
failing call closes the trace, nothing after it is attempted, and the
result is False. -/
theorem processFiles_failFirst (cap : RemoteCap) (c : Client) (sep : Char)
    (lf rb : String) :
    ∀ (pre : List (List String × String)) (bad : List String × String)
      (rest : List (List String × String)),
      isHidden bad.2 = false →
      upload cap c (filePaths sep lf rb bad).1 (filePaths sep lf rb bad).2 = false →
      (∀ e ∈ pre, isHidden e.2 = false →
        upload cap c (filePaths sep lf rb e).1 (filePaths sep lf rb e).2 = true) →
      processFiles cap c sep lf rb (pre ++ bad :: rest) =
        (false, ((pre.filter fun e => !(isHidden e.2)).map (filePaths sep lf rb)) ++
          [filePaths sep lf rb bad])
  | [], bad, rest, hb, hfail, _ => by
      simp [processFiles, hb, hfail]
  | e :: pre, bad, rest, hb, hfail, hpre => by
      have ih := processFiles_failFirst cap c sep lf rb pre bad rest hb hfail
        (fun x hx hhid => hpre x (List.mem_cons_of_mem e hx) hhid)
      by_cases h : isHidden e.2
      · simpa [processFiles, h] using ih
      · have hup := hpre e (List.mem_cons_self e pre) (by simp [h])
        simp [processFiles, h, hup, ih]

/-- C3: when the walk of a tree is some prefix, then a first failing
non-hidden file, then a remainder, and every non-hidden file of the prefix
uploads successfully, upload_folder returns False and its issued-call trace
is exactly the uploads of the non-hidden prefix files, in walk order,
followed by the failing call; no later file is attempted. -/
theorem claim_C3 (cap : RemoteCap) (c : Client) (sep : Char) (lf rb : String)
    (t : List Entry) (pre : List (List String × String))
    (bad : List String × String) (rest : List (List String × String))
    (hw : walkFiles t = pre ++ bad :: rest)
    (hb : isHidden bad.2 = false)
    (hfail : upload cap c (filePaths sep lf rb bad).1 (filePaths sep lf rb bad).2 = false)
    (hpre : ∀ e ∈ pre, isHidden e.2 = false →
      upload cap c (filePaths sep lf rb e).1 (filePaths sep lf rb e).2 = true) :
    upload_folder cap c sep lf rb (some t) =
      (false, ((pre.filter fun e => !(isHidden e.2)).map (filePaths sep lf rb)) ++
        [filePaths sep lf rb bad]) := by
  show processFiles cap c sep lf rb (walkFiles t) = _
  rw [hw]
  exact processFiles_failFirst cap c sep lf rb pre bad rest hb hfail hpre

theorem claim_C3_witness :
    upload_folder failBadCap testClient '/' "d" "base"
      (some [Entry.file "ok.txt", Entry.file "bad.txt"]) =
      (false, [("d/ok.txt", "base/ok.txt"), ("d/bad.txt", "base/bad.txt")]) := by
  have h := claim_C3 failBadCap testClient '/' "d" "base"
    [Entry.file "ok.txt", Entry.file "bad.txt"]
    [([], "ok.txt")] ([], "bad.txt") [] rfl rfl (by decide) (by decide)
  simpa using h

/-- A plain path component: nonempty and free of both candidate separator
characters, as the names a, b, c.txt of the scenario are. -/
def plainName (s : String) : Prop :=
  s ≠ "" ∧ ∀ ch ∈ s.data, ch ≠ '/' ∧ ch ≠ '\\'

/-- A string with nonempty character data is not the empty string. -/
theorem ne_empty_of_data_ne_nil (s : String) (h : s.data ≠ []) : s ≠ "" :=
  fun hc => h (by rw [hc])

/-- A plain name has nonempty data. -/
theorem plainName_data_ne_nil (s : String) (h : plainName s) : s.data ≠ [] :=
  fun hc => h.1 (String.ext (by rw [hc]))

/-- A plain name does not start with either separator. -/
theorem plainName_head (sep : Char) (hsep : sep = '/' ∨ sep = '\\')
    (s : String) (h : plainName s) : s.data.head? ≠ some sep := by
  intro hc
  have hm : sep ∈ s.data := by
    cases hl : s.data with
    | nil => simp [hl] at hc
    | cons x l =>
        rw [hl] at hc
        simp only [List.head?_cons, Option.some.injEq] at hc
        simp [hl, hc]
  rcases hsep with h1 | h1
  · exact (h.2 sep hm).1 h1
  · exact (h.2 sep hm).2 h1

/-- A plain name does not end with either separator. -/
theorem plainName_getLast (sep : Char) (hsep : sep = '/' ∨ sep = '\\')
    (s : String) (h : plainName s) : s.data.getLast? ≠ some sep := by
  intro hc
  have hm : sep ∈ s.data := List.mem_of_mem_getLast? hc
  rcases hsep with h1 | h1
  · exact (h.2 sep hm).1 h1
  · exact (h.2 sep hm).2 h1

/-- os.path.join inserts the separator between a nonempty left part not
ending with it and a right part not starting with it. -/
theorem osJoin_sep (sep : Char) (x y : String) (hx : x ≠ "")
    (hxl : x.data.getLast? ≠ some sep) (hy : y.data.head? ≠ some sep) :
    osJoin sep x y = x ++ sepStr sep ++ y := by
  unfold osJoin
  rw [if_neg hy, if_neg hx, if_neg hxl]

/-- The character data of x ++ sepStr sep ++ y. -/
theorem data_append_sep (sep : Char) (x y : String) :
    (x ++ sepStr sep ++ y).data = x.data ++ [sep] ++ y.data := by
  simp [String.data_append, sepStr]

/-- os.path.relpath strips the root from a path strictly below it. -/
theorem osRelpath_strip (sep : Char) (start rest : String) :
    osRelpath sep (start ++ sepStr sep ++ rest) start = rest := by
  unfold osRelpath
  have hdata : (start ++ sepStr sep ++ rest).data = (start.data ++ [sep]) ++ rest.data := by
    simp [String.data_append, sepStr]
  have hne : start ++ sepStr sep ++ rest ≠ start := by
    intro hc
    have hlen := congrArg (fun s : String => s.data.length) hc
    simp only [hdata, List.length_append, List.length_cons, List.length_nil] at hlen
    omega
  have hpre : List.isPrefixOf (start.data ++ [sep]) (start ++ sepStr sep ++ rest).data = true := by
    rw [hdata]
    exact List.isPrefixOf_iff_prefix.mpr (List.prefix_append _ _)
  rw [if_neg hne, if_pos hpre, hdata]
  have hlen1 : start.data.length + 1 = (start.data ++ [sep]).length := by simp
  rw [hlen1, List.drop_left]

/-- replaceBackslashes distributes over append. -/
theorem replaceBackslashes_append (x y : String) :
    replaceBackslashes (x ++ y) = replaceBackslashes x ++ replaceBackslashes y := by
  apply String.ext
  simp [replaceBackslashes, String.data_append]

/-- A map that fixes every element of a list is the identity on it. -/
theorem map_fixed_eq_self (f : Char → Char) : ∀ l : List Char,
    (∀ x ∈ l, f x = x) → l.map f = l
  | [], _ => rfl
  | x :: l, h => by
      rw [List.map_cons, h x (List.mem_cons_self x l),
        map_fixed_eq_self f l (fun y hy => h y (List.mem_cons_of_mem x hy))]

/-- replaceBackslashes leaves a backslash-free string unchanged. -/
theorem replaceBackslashes_id (s : String) (h : ∀ ch ∈ s.data, ch ≠ '\\') :
    replaceBackslashes s = s := by
  apply String.ext
  simp only [replaceBackslashes]
  exact map_fixed_eq_self _ s.data (fun x hx => by simp [h x hx])

/-- replaceBackslashes turns either separator into the forward slash. -/
theorem replaceBackslashes_sep (sep : Char) (hsep : sep = '/' ∨ sep = '\\') :
    replaceBackslashes (sepStr sep) = "/" := by
  rcases hsep with h | h <;> subst h <;> rfl

/-- Processing a single non-hidden walked file issues exactly its upload
call, whether or not the upload succeeds. -/
theorem processFiles_single (cap : RemoteCap) (c : Client) (sep : Char)
    (lf rb : String) (e : List String × String) (h : isHidden e.2 = false) :
    (processFiles cap c sep lf rb [e]).2 = [filePaths sep lf rb e] := by
  by_cases hup : upload cap c (filePaths sep lf rb e).1 (filePaths sep lf rb e).2 = true <;>
    simp [processFiles, h, hup]

/-- C1: over the tree with the single regular file at R/a/b/fn (a, b
directory names, fn a non-hidden file name, all free of separator
characters), upload_folder issues exactly one upload call whose remote
path is B joined with a, b, fn by forward slashes, under both candidate
host separators, whether or not the upload succeeds. -/
theorem claim_C1 (cap : RemoteCap) (c : Client) (sep : Char)
    (hsep : sep = '/' ∨ sep = '\\')
    (R B a b fn : String)
    (hR : R ≠ "") (hRlast : R.data.getLast? ≠ some sep)
    (hB : plainName B) (ha : plainName a) (hb : plainName b) (hf : plainName fn)
    (hhid : isHidden fn = false) :
    (upload_folder cap c sep R B
        (some [Entry.dir a [Entry.dir b [Entry.file fn]]])).2 =
      [(R ++ sepStr sep ++ a ++ sepStr sep ++ b ++ sepStr sep ++ fn,
        B ++ "/" ++ a ++ "/" ++ b ++ "/" ++ fn)] := by
  have hwalk : walkFiles [Entry.dir a [Entry.dir b [Entry.file fn]]] = [([a, b], fn)] := by
    simp [walkFiles, listWalk, entryWalk, filesOf]
  have h1 : osJoin sep R a = R ++ sepStr sep ++ a :=
    osJoin_sep sep R a hR hRlast (plainName_head sep hsep a ha)
  have hA_ne : R ++ sepStr sep ++ a ≠ "" := by
    apply ne_empty_of_data_ne_nil
    rw [data_append_sep]
    simp
  have hA_last : (R ++ sepStr sep ++ a).data.getLast? ≠ some sep := by
    rw [String.data_append, List.getLast?_append_of_ne_nil _ (plainName_data_ne_nil a ha)]
    exact plainName_getLast sep hsep a ha
  have h2 : osJoin sep (R ++ sepStr sep ++ a) b = R ++ sepStr sep ++ a ++ sepStr sep ++ b :=
    osJoin_sep sep _ b hA_ne hA_last (plainName_head sep hsep b hb)
  have hB2_ne : R ++ sepStr sep ++ a ++ sepStr sep ++ b ≠ "" := by
    apply ne_empty_of_data_ne_nil
    rw [data_append_sep]
    simp
  have hB2_last : (R ++ sepStr sep ++ a ++ sepStr sep ++ b).data.getLast? ≠ some sep := by
    rw [String.data_append, List.getLast?_append_of_ne_nil _ (plainName_data_ne_nil b hb)]
    exact plainName_getLast sep hsep b hb
  have h3 : osJoin sep (R ++ sepStr sep ++ a ++ sepStr sep ++ b) fn =
      R ++ sepStr sep ++ a ++ sepStr sep ++ b ++ sepStr sep ++ fn :=
    osJoin_sep sep _ fn hB2_ne hB2_last (plainName_head sep hsep fn hf)
  have hassoc : R ++ sepStr sep ++ a ++ sepStr sep ++ b ++ sepStr sep ++ fn =
      R ++ sepStr sep ++ (a ++ sepStr sep ++ b ++ sepStr sep ++ fn) := by
    simp [String.append_assoc]
  have hrel : osRelpath sep (R ++ sepStr sep ++ a ++ sepStr sep ++ b ++ sepStr sep ++ fn) R =
      a ++ sepStr sep ++ b ++ sepStr sep ++ fn := by
    rw [hassoc]
    exact osRelpath_strip sep R _
  have hrest_head : (a ++ sepStr sep ++ b ++ sepStr sep ++ fn).data.head? ≠ some sep := by
    have hd : (a ++ sepStr sep ++ b ++ sepStr sep ++ fn).data =
        a.data ++ (sepStr sep ++ b ++ sepStr sep ++ fn).data := by
      simp [String.data_append, List.append_assoc]
    rw [hd, List.head?_append_of_ne_nil _ (plainName_data_ne_nil a ha)]
    exact plainName_head sep hsep a ha
  have h4 : osJoin sep B (a ++ sepStr sep ++ b ++ sepStr sep ++ fn) =
      B ++ sepStr sep ++ (a ++ sepStr sep ++ b ++ sepStr sep ++ fn) :=
    osJoin_sep sep B _ hB.1 (plainName_getLast sep hsep B hB) hrest_head
  have hrb : replaceBackslashes (B ++ sepStr sep ++ (a ++ sepStr sep ++ b ++ sepStr sep ++ fn)) =
      B ++ "/" ++ a ++ "/" ++ b ++ "/" ++ fn := by
    have hBid := replaceBackslashes_id B (fun ch hch => (hB.2 ch hch).2)
    have haid := replaceBackslashes_id a (fun ch hch => (ha.2 ch hch).2)
    have hbid := replaceBackslashes_id b (fun ch hch => (hb.2 ch hch).2)
    have hfid := replaceBackslashes_id fn (fun ch hch => (hf.2 ch hch).2)
    simp [replaceBackslashes_append, replaceBackslashes_sep sep hsep,
      hBid, haid, hbid, hfid, String.append_assoc]
  have hfp : filePaths sep R B ([a, b], fn) =
      (R ++ sepStr sep ++ a ++ sepStr sep ++ b ++ sepStr sep ++ fn,
       B ++ "/" ++ a ++ "/" ++ b ++ "/" ++ fn) := by
    unfold filePaths
    simp only [osJoinAll, List.foldl_cons, List.foldl_nil]
    rw [h1, h2, h3, hrel, h4, hrb]
  show (processFiles cap c sep R B
      (walkFiles [Entry.dir a [Entry.dir b [Entry.file fn]]])).2 = _
  rw [hwalk, processFiles_single cap c sep R B ([a, b], fn) hhid, hfp]

theorem claim_C1_witness :
    (upload_folder okCap testClient '\\' "root" "base"
        (some [Entry.dir "a" [Entry.dir "b" [Entry.file "c.txt"]]])).2 =
      [("root" ++ sepStr '\\' ++ "a" ++ sepStr '\\' ++ "b" ++ sepStr '\\' ++ "c.txt",
        "base" ++ "/" ++ "a" ++ "/" ++ "b" ++ "/" ++ "c.txt")] ∧
    (upload_folder okCap testClient '/' "root" "base"
        (some [Entry.dir "a" [Entry.dir "b" [Entry.file "c.txt"]]])).2 =
      [("root" ++ sepStr '/' ++ "a" ++ sepStr '/' ++ "b" ++ sepStr '/' ++ "c.txt",
        "base" ++ "/" ++ "a" ++ "/" ++ "b" ++ "/" ++ "c.txt")] :=
  ⟨claim_C1 okCap testClient '\\' (Or.inr rfl) "root" "base" "a" "b" "c.txt"
      (by decide) (by decide) ⟨by decide, by decide⟩ ⟨by decide, by decide⟩
      ⟨by decide, by decide⟩ ⟨by decide, by decide⟩ (by decide),
   claim_C1 okCap testClient '/' (Or.inl rfl) "root" "base" "a" "b" "c.txt"
      (by decide) (by decide) ⟨by decide, by decide⟩ ⟨by decide, by decide⟩
      ⟨by decide, by decide⟩ ⟨by decide, by decide⟩ (by decide)⟩

/-- lookup misses a key that no entry of the list carries. -/
theorem lookup_eq_none_of_forall (k : String) : ∀ l : List (String × String),
    (∀ kv ∈ l, kv.1 ≠ k) → List.lookup k l = none
  | [], _ => rfl
  | kv :: l, h => by
      have h1 : kv.1 ≠ k := h kv (List.mem_cons_self kv l)
      have h2 := lookup_eq_none_of_forall k l (fun x hx => h x (List.mem_cons_of_mem kv hx))
      have hb : (k == kv.1) = false := beq_eq_false_iff_ne.mpr (Ne.symm h1)
      simp [List.lookup, hb, h2]

/-- setFile makes the file readable at its path. -/
theorem lookup_setFile_self (fs : FS) (p content : String) :
    (fs.setFile p content).files.lookup p = some content := by
  simp [FS.setFile, List.lookup]

/-- After removing src and writing dst (dst distinct from src), no file
remains at src. -/
theorem lookup_removeFile_setFile (fs : FS) (src dst content : String)
    (hne : src ≠ dst) :
    ((fs.removeFile src).setFile dst content).files.lookup src = none := by
  have htail : ∀ kv ∈ (fs.files.filter fun kv => kv.1 ≠ src).filter
      (fun kv => kv.1 ≠ dst), kv.1 ≠ src := by
    intro kv hkv
    have h1 := List.mem_of_mem_filter hkv
    have h2 := List.of_mem_filter h1
    simpa using h2
  have hnone := lookup_eq_none_of_forall src _ htail
  have hb : (src == dst) = false := beq_eq_false_iff_ne.mpr hne
  simp only [FS.setFile, FS.removeFile, List.lookup, hb]
  exact hnone

/-- The successful run of download: the temporary file is written, the
destination directory chain is created, the temporary file is moved to
the destination. -/
theorem download_ok_eq (cap : RemoteCap) (c : Client) (sep : Char)
    (rp lp : String) (fs : FS) (tmp content : String)
    (hdl : cap.hubDownload c.repo_id rp c.repo_type c.branch c.token = .ok (tmp, content))
    (hdn : dirname sep lp ≠ "") :
    download cap c sep rp lp fs =
      (true,
        (({ fs.setFile tmp content with
            dirs := (fs.setFile tmp content).dirs ++
              (boundaryChain sep (dirname sep lp)).filter
                (fun q => q ∉ (fs.setFile tmp content).dirs) } : FS).removeFile tmp).setFile
          lp content) := by
  have hmk : makedirs sep (dirname sep lp) (fs.setFile tmp content) =
      .ok { fs.setFile tmp content with
            dirs := (fs.setFile tmp content).dirs ++
              (boundaryChain sep (dirname sep lp)).filter
                (fun q => q ∉ (fs.setFile tmp content).dirs) } := by
    unfold makedirs
    rw [if_neg hdn]
  have hlook : ({ fs.setFile tmp content with
            dirs := (fs.setFile tmp content).dirs ++
              (boundaryChain sep (dirname sep lp)).filter
                (fun q => q ∉ (fs.setFile tmp content).dirs) } : FS).files.lookup tmp =
      some content := by
    simp [FS.setFile, List.lookup]
  unfold download
  rw [hdl]
  dsimp only
  rw [hmk]
  dsimp only
  unfold moveFile
  rw [hlook]

/-- C6: under a successful remote fetch (temporary path distinct from the
destination, destination path carrying a directory part), download returns
True, every directory of the destination chain exists afterwards, the
content sits at exactly the requested local path, and the temporary file is
gone (moved, not copied). -/
theorem claim_C6 (cap : RemoteCap) (c : Client) (sep : Char)
    (rp lp : String) (fs : FS) (tmp content : String)
    (hdl : cap.hubDownload c.repo_id rp c.repo_type c.branch c.token = .ok (tmp, content))
    (hdn : dirname sep lp ≠ "") (hne : tmp ≠ lp) :
    (download cap c sep rp lp fs).1 = true ∧
    ((download cap c sep rp lp fs).2).files.lookup lp = some content ∧
    ((download cap c sep rp lp fs).2).files.lookup tmp = none ∧
    ∀ d ∈ boundaryChain sep (dirname sep lp), d ∈ ((download cap c sep rp lp fs).2).dirs := by
  rw [download_ok_eq cap c sep rp lp fs tmp content hdl hdn]
  refine ⟨rfl, lookup_setFile_self _ lp content, ?_, ?_⟩
  · exact lookup_removeFile_setFile _ tmp lp content hne
  · intro d hd
    show d ∈ (fs.setFile tmp content).dirs ++
      (boundaryChain sep (dirname sep lp)).filter
        (fun q => q ∉ (fs.setFile tmp content).dirs)
    by_cases hmem : d ∈ (fs.setFile tmp content).dirs
    · exact List.mem_append_left _ hmem
    · refine List.mem_append_right _ (List.mem_filter.mpr ⟨hd, ?_⟩)
      simpa using hmem

theorem claim_C6_witness :
    (download okCap testClient '/' "videos/a.bin" "out/new/deep/file.bin" ⟨[], []⟩).1 = true ∧
    ((download okCap testClient '/' "videos/a.bin" "out/new/deep/file.bin" ⟨[], []⟩).2).files.lookup
      "out/new/deep/file.bin" = some "payload" ∧
    ((download okCap testClient '/' "videos/a.bin" "out/new/deep/file.bin" ⟨[], []⟩).2).files.lookup
      "cachetmp" = none ∧
    "out" ∈ ((download okCap testClient '/' "videos/a.bin" "out/new/deep/file.bin" ⟨[], []⟩).2).dirs ∧
    "out/new" ∈ ((download okCap testClient '/' "videos/a.bin" "out/new/deep/file.bin" ⟨[], []⟩).2).dirs ∧
    "out/new/deep" ∈ ((download okCap testClient '/' "videos/a.bin" "out/new/deep/file.bin" ⟨[], []⟩).2).dirs := by
  have h := claim_C6 okCap testClient '/' "videos/a.bin" "out/new/deep/file.bin" ⟨[], []⟩
    "cachetmp" "payload" rfl (by decide) (by decide)
  exact ⟨h.1, h.2.1, h.2.2.1,
    h.2.2.2 "out" (by decide), h.2.2.2 "out/new" (by decide),
    h.2.2.2 "out/new/deep" (by decide)⟩

/-- C8 as stated is false: downloading to a destination without a directory
part makes os.makedirs raise, the handler of line 154 swallows the fault
and returns False, and the temporary file written by hf_hub_download is
left in place: an exit path on which the created temporary artifact is
neither relocated nor cleaned up. -/
theorem claim_C8_counterexample :
    (download okCap testClient '/' "videos/a.bin" "file.bin" ⟨[], []⟩).1 = false ∧
    ((download okCap testClient '/' "videos/a.bin" "file.bin" ⟨[], []⟩).2).files.lookup
      "cachetmp" = some "payload" ∧
    ((download okCap testClient '/' "videos/a.bin" "file.bin" ⟨[], []⟩).2).files.lookup
      "file.bin" = none := by
  refine ⟨rfl, rfl, rfl⟩

/-- C8 amended: once the temporary artifact exists, the success exit path
relocates it to the destination (it is gone from the temporary location);
every failure exit path leaves it at the temporary location, with no
cleanup. -/
theorem claim_C8 (cap : RemoteCap) (c : Client) (sep : Char)
    (rp lp : String) (fs : FS) (tmp content : String)
    (hdl : cap.hubDownload c.repo_id rp c.repo_type c.branch c.token = .ok (tmp, content))
    (hne : tmp ≠ lp) :
    ((download cap c sep rp lp fs).1 = true →
      ((download cap c sep rp lp fs).2).files.lookup tmp = none ∧
      ((download cap c sep rp lp fs).2).files.lookup lp = some content) ∧
    ((download cap c sep rp lp fs).1 = false →
      ((download cap c sep rp lp fs).2).files.lookup tmp = some content) := by
  by_cases hdn : dirname sep lp = ""
  · have heq : download cap c sep rp lp fs = (false, fs.setFile tmp content) := by
      unfold download
      rw [hdl]
      dsimp only
      unfold makedirs
      rw [if_pos hdn]
    rw [heq]
    refine ⟨fun h => absurd h (by simp), fun _ => lookup_setFile_self fs tmp content⟩
  · rw [download_ok_eq cap c sep rp lp fs tmp content hdl hdn]
    refine ⟨fun _ => ⟨?_, lookup_setFile_self _ lp content⟩, fun h => absurd h (by simp)⟩
    exact lookup_removeFile_setFile _ tmp lp content hne

theorem claim_C8_witness :
    ((download okCap testClient '/' "videos/b.bin" "file.bin" ⟨[], []⟩).2).files.lookup
      "cachetmp" = some "payload" ∧
    ((download okCap testClient '/' "videos/b.bin" "out/file.bin" ⟨[], []⟩).2).files.lookup
      "cachetmp" = none := by
  have h1 := claim_C8 okCap testClient '/' "videos/b.bin" "file.bin" ⟨[], []⟩
    "cachetmp" "payload" rfl (by decide)
  have h2 := claim_C8 okCap testClient '/' "videos/b.bin" "out/file.bin" ⟨[], []⟩
    "cachetmp" "payload" rfl (by decide)
  exact ⟨h1.2 rfl, (h2.1 rfl).1⟩
